import Mathlib

/-!
Verification of the attC clustering and adaptive-window re-search controller
of Integron_Finder (`integron_finder/attc.py`).

The Python functions `search_attc` and `find_attc_max` operate on pandas
DataFrames.  We model a DataFrame as a Lean `List` of typed rows (the pandas
row order is the list order, the implicit pandas integer index is modelled
explicitly where a claim needs it).  Python's `%` on ints with a positive
modulus agrees with Lean's `Int.emod` (`%`), which is what we use throughout.

External collaborators (`local_max`, `expand` from `integron_finder.infernal`)
are opaque in the source file under verification; they are modelled as
function parameters returning hit tables.
-/

namespace IntegronFinder

/-- One row of an attC hit table, with the columns used by `attc.py`:
`Accession_number, cm_attC, cm_debut, cm_fin, pos_beg, pos_end, sens, evalue`.
`evalue` is modelled as a rational number. -/
structure Row where
  acc : String
  cm_attC : String
  cm_debut : Int
  cm_fin : Int
  pos_beg : Int
  pos_end : Int
  sens : String
  evalue : Rat
deriving Repr, DecidableEq, Inhabited

/-- The `"+"` strand label. -/
def plusSens : String := "+"

/-- The `"-"` strand label. -/
def minusSens : String := "-"

/-- Lexicographic order on `(pos_beg, evalue)`: the sort key of
`attc_df.sort_values(["pos_beg", "evalue"])`. -/
def rowLe (a b : Row) : Prop :=
  a.pos_beg < b.pos_beg ∨ (a.pos_beg = b.pos_beg ∧ a.evalue ≤ b.evalue)

instance : DecidableRel rowLe := fun a b => by
  unfold rowLe; infer_instance

instance : IsTotal Row rowLe where
  total a b := by
    unfold rowLe
    rcases lt_trichotomy a.pos_beg b.pos_beg with h | h | h
    · exact Or.inl (Or.inl h)
    · rcases le_total a.evalue b.evalue with he | he
      · exact Or.inl (Or.inr ⟨h, he⟩)
      · exact Or.inr (Or.inr ⟨h.symm, he⟩)
    · exact Or.inr (Or.inl h)

instance : IsTrans Row rowLe where
  trans a b c hab hbc := by
    unfold rowLe at *
    rcases hab with h1 | ⟨h1, e1⟩
    · rcases hbc with h2 | ⟨h2, _⟩
      · exact Or.inl (h1.trans h2)
      · exact Or.inl (h2 ▸ h1)
    · rcases hbc with h2 | ⟨h2, e2⟩
      · exact Or.inl (h1 ▸ h2)
      · exact Or.inr ⟨h1.trans h2, e1.trans e2⟩

/-- pandas `drop_duplicates(subset=...)` with the default `keep="first"`:
keep the first element of each key value, preserving order. -/
def dropDupBy {α κ : Type} [DecidableEq κ] (key : α → κ) : List α → List α
  | [] => []
  | x :: xs => x :: dropDupBy key (xs.filter fun r => key r ≠ key x)
termination_by l => l.length
decreasing_by
  simp only [List.length_cons]
  exact Nat.lt_succ_of_le (List.length_filter_le _ _)

/-- `drop_duplicates(subset=["pos_beg"])` with pandas' default `keep="first"`:
keep the first row of each `pos_beg` value, preserving order. -/
def dropDupPosBeg : List Row → List Row :=
  dropDupBy Row.pos_beg

/-- Line 63 of `attc.py`:
`attc_df.sort_values(["pos_beg", "evalue"]).drop_duplicates(subset=["pos_beg"])`.
pandas' multi-column `sort_values` uses `numpy.lexsort`, which is a stable
sort; we model it with Mathlib's stable `insertionSort`. -/
def dedupPalindromes (df : List Row) : List Row :=
  dropDupPosBeg (List.insertionSort rowLe df)

/-- `(series.diff() > dist_threshold).any()`: some consecutive `pos_beg` gap
exceeds the threshold (the first row's `diff` is NaN, which never exceeds). -/
def hasGapOver (d : Int) : List Row → Bool
  | [] => false
  | _ :: [] => false
  | a :: b :: t => (decide (b.pos_beg - a.pos_beg > d)) || hasGapOver d (b :: t)

/-- Helper of `splitAtGaps`: `cur` is the current chunk (reversed),
`prev` the previous row. -/
def splitAtGapsAux (d : Int) (cur : List Row) (prev : Row) :
    List Row → List (List Row)
  | [] => [cur.reverse]
  | y :: ys =>
    if y.pos_beg - prev.pos_beg > d then
      cur.reverse :: splitAtGapsAux d [y] y ys
    else
      splitAtGapsAux d (y :: cur) y ys

/-- Lines 70-74 and 88/99 of `attc.py`: the breakpoints are the positional
indices whose `pos_beg.diff()` exceeds `dist_threshold`, and `np.split` cuts
the strand table right before each such index.  Equivalently, a new chunk
starts exactly at each row whose gap from the previous row exceeds the
threshold. -/
def splitAtGaps (d : Int) : List Row → List (List Row)
  | [] => []
  | x :: xs => splitAtGapsAux d [x] x xs

/-- A default row (used only for the `[0][0]` / `[-1][-1]` element accesses
of `wrapMerge`, which the guard keeps within bounds). -/
def defRow : Row := default

/-- Lines 90-94 (resp. 101-105) of `attc.py`: the circular wraparound merge of
one strand's chunk list.  If there are at least two chunks and
`(first_pos_beg - last_pos_beg) % replicon_size < dist_threshold`, the last
chunk is concatenated in front of the first chunk and dropped from the list. -/
def wrapMerge (size d : Int) (arrays : List (List Row)) : List (List Row) :=
  if arrays.length > 1 then
    let firstPos := ((arrays.headD []).headD defRow).pos_beg
    let lastPos := ((arrays.getLastD []).getLastD defRow).pos_beg
    if (firstPos - lastPos) % size < d then
      (arrays.getLastD [] ++ arrays.headD []) :: (arrays.drop 1).dropLast
    else arrays
  else arrays

/-- `attc_df[attc_df.sens == "+"]` (line 59/64). -/
def plusStrand (df : List Row) : List Row :=
  df.filter fun r => r.sens == plusSens

/-- `attc_df[attc_df.sens == "-"]` (line 60/65). -/
def minusStrand (df : List Row) : List Row :=
  df.filter fun r => r.sens == minusSens

/-- One strand's chunk list before the wraparound merge: empty strands
contribute no chunk (`array_plus = []` at line 86), non-empty strands are
split at their gap breakpoints. -/
def strandPreMerge (d : Int) (l : List Row) : List (List Row) :=
  if l.isEmpty then [] else splitAtGaps d l

/-- The list of per-cluster tables produced before the wraparound merge
(plus strand first, then minus strand), as built in the `else` branch of
`search_attc`. -/
def preMergeClusters (df : List Row) (d : Int) : List (List Row) :=
  strandPreMerge d (plusStrand df) ++ strandPreMerge d (minusStrand df)

/-- Lines 54-116 of `attc.py` after the palindrome-dedup step: split by
strand, decide `ok`, and either return the whole table as a single cluster
(or nothing when empty) or split each strand at its gaps and wraparound-merge
each strand independently.  The final `astype(int)` / `astype(float)` casts
are identities in this typed model. -/
def searchAttcCore (df : List Row) (d size : Int) : List (List Row) :=
  let plus := plusStrand df
  let minus := minusStrand df
  let ok := hasGapOver d plus || hasGapOver d minus ||
    (!plus.isEmpty && !minus.isEmpty)
  if !ok then
    if df.isEmpty then [] else [df]
  else
    wrapMerge size d (strandPreMerge d plus) ++
      wrapMerge size d (strandPreMerge d minus)

/-- `search_attc(attc_df, keep_palindromes, dist_threshold, replicon_size)`
(lines 41-116 of `attc.py`).  When palindromes are not kept the whole table
is first sorted by `(pos_beg, evalue)` and deduplicated on `pos_beg`, then
the strand split and clustering run on the resulting table. -/
def search_attc (attc_df : List Row) (keep_palindromes : Bool)
    (dist_threshold replicon_size : Int) : List (List Row) :=
  let df := if keep_palindromes then attc_df else dedupPalindromes attc_df
  searchAttcCore df dist_threshold replicon_size

/-- Number of consecutive gaps strictly above `d`, starting from `prev`. -/
def gapCountFrom (d : Int) (prev : Row) : List Row → Nat
  | [] => 0
  | y :: ys => (if y.pos_beg - prev.pos_beg > d then 1 else 0) + gapCountFrom d y ys

/-- Number of consecutive `pos_beg` gaps strictly above `d` in a table. -/
def gapCount (d : Int) : List Row → Nat
  | [] => 0
  | x :: xs => gapCountFrom d x xs

/-! ## `find_attc_max` (lines 148-302 of `attc.py`) -/

/-- One row of an integron description table (`integron.describe()` output):
the columns read by `find_attc_max`. -/
structure DescRow where
  pos_beg : Int
  pos_end : Int
  strand : Int
  type_elt : String
  annot : String
  model : String
  type : String
deriving Repr, DecidableEq, Inhabited

/-- The `"attC"` value of the `type_elt` column. -/
def attCElt : String := "attC"

/-- The `"intI"` value of the `annotation` column. -/
def intIAnnot : String := "intI"

/-- The `"complete"` integron type. -/
def completeType : String := "complete"

/-- The `"CALIN"` integron type. -/
def calinType : String := "CALIN"

/-- The `"In0"` integron type. -/
def in0Type : String := "In0"

/-- The `"Phage_integrase"` model name. -/
def phageModel : String := "Phage_integrase"

/-- The `"top"` strand-search label. -/
def topStrand : String := "top"

/-- The `"bottom"` strand-search label. -/
def bottomStrand : String := "bottom"

/-- Message for a Python `IndexError` (out-of-bounds `.values[...]` access). -/
def indexErr : String := "IndexError"

/-- Message for the Python `UnboundLocalError` on the `strand` variable. -/
def unboundStrandErr : String := "UnboundLocalError: strand"

/-- `series.values[0]`: first element, raising `IndexError` when empty. -/
def vfirst : List α → Except String α
  | [] => .error indexErr
  | x :: _ => .ok x

/-- `series.values[-1]`: last element, raising `IndexError` when empty. -/
def vlast : List α → Except String α
  | [] => .error indexErr
  | x :: xs => .ok ((x :: xs).getLast (by simp))

/-- The window adjustment shared by all three branches: on a circular
replicon both bounds wrap modulo the replicon size, on a linear replicon
the begin is clamped below at 0 and the end clamped above at the size
(lines 217-222, 250-255, 279-284). -/
def adjustWindow (circular : Bool) (size wb dtl we dtr : Int) : Int × Int :=
  if circular then ((wb - dtl) % size, (we + dtr) % size)
  else (max 0 (wb - dtl), min size (we + dtr))

/-- The rows with `type_elt == "attC"`. -/
def attcRows (fe : List DescRow) : List DescRow :=
  fe.filter fun r => r.type_elt == attCElt

/-- The rows with `annotation == "intI"`. -/
def intIRows (fe : List DescRow) : List DescRow :=
  fe.filter fun r => r.annot == intIAnnot

/-- Lines 200-222: the `complete` branch's integrase-side test and window.
Returns `(integrase_is_left, window_beg, window_end)` after the
circular/linear adjustment.  Note the code compares
`attC pos_beg values[0] - intI pos_end values[0]` (the FIRST intI row's end)
against `intI pos_beg values[0] - attC pos_end values[-1]`. -/
def completeWindowCalc (fe : List DescRow) (size d : Int) (circular : Bool) :
    Except String (Bool × Int × Int) := do
  let aBeg0 ← vfirst ((attcRows fe).map DescRow.pos_beg)
  let iEnd0 ← vfirst ((intIRows fe).map DescRow.pos_end)
  let iBeg0 ← vfirst ((intIRows fe).map DescRow.pos_beg)
  let aEndLast ← vlast ((attcRows fe).map DescRow.pos_end)
  let isLeft := decide ((aBeg0 - iEnd0) % size < (iBeg0 - aEndLast) % size)
  if isLeft then
    let (wb, we) := adjustWindow circular size iEnd0 0 aEndLast d
    return (isLeft, wb, we)
  else
    let iEndLast ← vlast ((intIRows fe).map DescRow.pos_end)
    let (wb, we) := adjustWindow circular size aBeg0 d iEndLast 0
    return (isLeft, wb, we)

/-- Lines 234-237: the `complete` branch's expansion directives.
`go_left` uses `df_max.pos_end.values[0]` (the first row of the new search)
and is gated on the integrase NOT being left; `go_right` uses
`df_max.pos_beg.values[-1]` (the last row) and is gated on the integrase
being left. -/
def completeGoDirs (fe : List DescRow) (dfMax : List Row) (size d : Int)
    (isLeft : Bool) : Except String (Bool × Bool) := do
  let aBeg0 ← vfirst ((attcRows fe).map DescRow.pos_beg)
  let aEndLast ← vlast ((attcRows fe).map DescRow.pos_end)
  let dmEnd0 ← vfirst (dfMax.map Row.pos_end)
  let dmBegLast ← vlast (dfMax.map Row.pos_beg)
  let goLeft := decide ((aBeg0 - dmEnd0) % size < d) && !isLeft
  let goRight := decide ((dmBegLast - aEndLast) % size < d) && isLeft
  return (goLeft, goRight)

/-- Lines 264-267: the `CALIN` branch's expansion directives — the same two
gap conditions as the `complete` branch but without the integrase gating. -/
def calinGoDirs (fe : List DescRow) (dfMax : List Row) (size d : Int) :
    Except String (Bool × Bool) := do
  let aBeg0 ← vfirst ((attcRows fe).map DescRow.pos_beg)
  let aEndLast ← vlast ((attcRows fe).map DescRow.pos_end)
  let dmEnd0 ← vfirst (dfMax.map Row.pos_end)
  let dmBegLast ← vlast (dfMax.map Row.pos_beg)
  let goLeft := decide ((aBeg0 - dmEnd0) % size < d)
  let goRight := decide ((dmBegLast - aEndLast) % size < d)
  return (goLeft, goRight)

/-- Lines 248-255: the `CALIN` branch's symmetric window around the attC
span. -/
def calinWindowCalc (fe : List DescRow) (size d : Int) (circular : Bool) :
    Except String (Int × Int) := do
  let wb0 ← vfirst ((attcRows fe).map DescRow.pos_beg)
  let we0 ← vlast ((attcRows fe).map DescRow.pos_end)
  return adjustWindow circular size wb0 d we0 d

/-- Lines 277-284: the `In0` branch's symmetric window around the integrase
span. -/
def in0WindowCalc (fe : List DescRow) (size d : Int) (circular : Bool) :
    Except String (Int × Int) := do
  let wb0 ← vfirst ((intIRows fe).map DescRow.pos_beg)
  let we0 ← vlast ((intIRows fe).map DescRow.pos_end)
  return adjustWindow circular size wb0 d we0 d

/-- The `local_max` collaborator: `window_beg → window_end → strand_search →
hit table` (the replicon, model path, output directory and cpu count are
fixed throughout one `find_attc_max` call and omitted). -/
abbrev LocalMaxFn := Int → Int → String → List Row

/-- The `expand` collaborator: `window_beg → window_end → max_elt → df_max →
search_left → search_right → hit table` (fixed arguments omitted). -/
abbrev ExpandFn := Int → Int → List Row → List Row → Bool → Bool → List Row

/-- The `strand_search` label chosen from the first attC row's `strand`
(lines 224, 256): `"top"` when it is `1`, else `"bottom"`. -/
def strandLabel (s : Int) : String :=
  if s == 1 then topStrand else bottomStrand

/-- Lines 198-243, `complete` branch: compute the window, run `local_max`,
derive the expansion directives (an `IndexError` when the search returned no
hit) and expand.  Returns the branch's `max_elt` and the value assigned to
the local variable `strand`. -/
def completeBranch (lm : LocalMaxFn) (ex : ExpandFn) (size d : Int)
    (circular : Bool) (fe : List DescRow) :
    Except String (List Row × String) := do
  let (isLeft, wb, we) ← completeWindowCalc fe size d circular
  let s0 ← vfirst ((attcRows fe).map DescRow.strand)
  let strand := strandLabel s0
  let dfMax := lm wb we strand
  let maxElt := dfMax
  let (goLeft, goRight) ← completeGoDirs fe dfMax size d isLeft
  let maxElt := ex wb we maxElt dfMax goLeft goRight
  return (maxElt, strand)

/-- Lines 245-273, `CALIN` branch: when no `pos_beg` of the description is
already a member of the accumulated table's `pos_beg` column, compute the
window, run `local_max`, and only expand when the search found at least one
hit.  Returns the branch's `max_elt` and the value assigned to `strand`
(`none` when the branch did not run). -/
def calinBranch (lm : LocalMaxFn) (ex : ExpandFn) (size d : Int)
    (circular : Bool) (fe : List DescRow) (curPosBegs : List Int) :
    Except String (List Row × Option String) := do
  if (fe.filter fun r => curPosBegs.contains r.pos_beg).isEmpty then
    let (wb, we) ← calinWindowCalc fe size d circular
    let s0 ← vfirst ((attcRows fe).map DescRow.strand)
    let strand := strandLabel s0
    let dfMax := lm wb we strand
    let maxElt := dfMax
    if dfMax.isEmpty then
      return (maxElt, some strand)
    else
      let (goLeft, goRight) ← calinGoDirs fe dfMax size d
      return (ex wb we maxElt dfMax goLeft goRight, some strand)
  else
    return ([], none)

/-- Lines 275-297, `In0` branch: for a non-`Phage_integrase` model, compute
the window and call `local_max` with `strand_search=strand` — but `strand`
is a local variable assigned only in the `complete` and `CALIN` branches, so
this read raises `UnboundLocalError` when no earlier branch assigned it. -/
def in0Branch (lm : LocalMaxFn) (ex : ExpandFn) (size d : Int)
    (circular : Bool) (fe : List DescRow) (strandVar : Option String) :
    Except String (List Row) := do
  if fe.all fun r => r.model ≠ phageModel then
    let (wb, we) ← in0WindowCalc fe size d circular
    let strand ← match strandVar with
      | none => Except.error unboundStrandErr
      | some s => Except.ok s
    let dfMax := lm wb we strand
    let maxElt := dfMax
    if maxElt.isEmpty then
      return maxElt
    else
      return ex wb we maxElt dfMax true true
  else
    return []

/-- The columns on which
`max_final.drop_duplicates(subset=max_final.columns[:-1])` compares rows:
every column except the last one, `evalue`. -/
structure RowKey where
  acc : String
  cm_attC : String
  cm_debut : Int
  cm_fin : Int
  pos_beg : Int
  pos_end : Int
  sens : String
deriving Repr, DecidableEq

/-- Project a row onto all columns except `evalue`. -/
def rowKey (r : Row) : RowKey :=
  ⟨r.acc, r.cm_attC, r.cm_debut, r.cm_fin, r.pos_beg, r.pos_end, r.sens⟩

/-- `drop_duplicates(subset=columns[:-1])` with `keep="first"`: keep the
first row of each `rowKey`, preserving order. -/
def dropDupRowKey : List Row → List Row :=
  dropDupBy rowKey

/-- The running state of `find_attc_max`: the accumulated `max_final` rows,
its pandas index, and the (function-scoped) `strand` local variable. -/
structure MaxState where
  rows : List Row
  idx : List Int
  strandVar : Option String
deriving Repr, DecidableEq, Inhabited

/-- The initial state: an empty typed `max_final` table (lines 187-192) and
no `strand` binding. -/
def initState : MaxState := ⟨[], [], none⟩

/-- Lines 198-297: dispatch on the integron type
(`all(full_element.type == ...)`, which holds vacuously for an empty
description, so the `complete` branch is tried first).  Returns the branch's
`max_elt` and the value assigned to the `strand` local variable (if any). -/
def branchDispatch (lm : LocalMaxFn) (ex : ExpandFn) (size d : Int)
    (circular : Bool) (st : MaxState) (fe : List DescRow) :
    Except String (List Row × Option String) :=
  if fe.all fun r => r.type == completeType then
    (completeBranch lm ex size d circular fe).map fun p => (p.1, some p.2)
  else if fe.all fun r => r.type == calinType then
    calinBranch lm ex size d circular fe (st.rows.map Row.pos_beg)
  else if fe.all fun r => r.type == in0Type then
    (in0Branch lm ex size d circular fe st.strandVar).map
      fun m => (m, (none : Option String))
  else
    .ok ([], (none : Option String))

/-- Lines 299-301: append the branch's `max_elt` to `max_final`, drop
duplicate rows (identical on all columns except `evalue`, first occurrence
kept) and re-index to a dense 0-based range; remember the `strand` local
variable when the branch assigned it. -/
def finishIteration (st : MaxState) (p : List Row × Option String) : MaxState :=
  let newRows := dropDupRowKey (st.rows ++ p.1)
  ⟨newRows, (List.range newRows.length).map Int.ofNat,
    p.2.orElse fun _ => st.strandVar⟩

/-- One loop iteration of `find_attc_max`: branch dispatch followed by the
concat / dedup / re-index step. -/
def processIntegron (lm : LocalMaxFn) (ex : ExpandFn) (size d : Int)
    (circular : Bool) (st : MaxState) (fe : List DescRow) :
    Except String MaxState :=
  (branchDispatch lm ex size d circular st fe).map (finishIteration st)

/-- `find_attc_max(integrons, replicon, distance_threshold, ...)`
(lines 148-302): fold over the integron descriptions, threading the
accumulated table and the `strand` local variable; a raised exception
aborts the whole run. -/
def find_attc_max (lm : LocalMaxFn) (ex : ExpandFn) (size d : Int)
    (circular : Bool) (integrons : List (List DescRow)) :
    Except String MaxState :=
  integrons.foldlM (processIntegron lm ex size d circular) initState

/-! ## Spec-side comparison definition and concrete inputs -/

/-- The survivor of one `pos_beg` group as the spec words it ("the
lowest-e_value row, ties broken by the original row order"): scanning the
original table, a row takes over from the later-rows survivor exactly when
it carries the group's `pos_beg` and an e-value less than or equal to the
survivor's.  Used only to compare against `dedupPalindromes`. -/
def specSurvivor (p : Int) : List Row → Option Row
  | [] => none
  | x :: xs =>
    match specSurvivor p xs with
    | none => if x.pos_beg = p then some x else none
    | some r => if x.pos_beg = p ∧ x.evalue ≤ r.evalue then some x else some r

/-- One step of the survivor scan: a new, earlier row `x` takes over from
the current survivor exactly when its e-value is less than or equal. -/
def survStep (x : Row) : Option Row → Option Row
  | none => some x
  | some h => if x.evalue ≤ h.evalue then some x else some h

/-- Build an attC hit row with fixed accession/model columns. -/
def mkRow (pb pe : Int) (s : String) (ev : Rat) : Row :=
  ⟨"ACBA007", "attC_4", 1, 47, pb, pe, s, ev⟩

/-- Scenario row at `pos_beg` 100 (plus strand, lowest e-value). -/
def r100 : Row := mkRow 100 150 plusSens 1

/-- Scenario row at `pos_beg` 105 (plus strand, highest e-value). -/
def r105 : Row := mkRow 105 155 plusSens 100

/-- Scenario row at `pos_beg` 6000 (plus strand, middle e-value). -/
def r6000 : Row := mkRow 6000 6050 plusSens 10

/-- The spec's `complete` scenario: one intI annotation ending at 500 and a
single attC hit spanning `[600, 650]`. -/
def feC2 : List DescRow :=
  [⟨500, 500, 1, "protein", intIAnnot, "intersection_tyr_intI", completeType⟩,
   ⟨600, 650, 1, attCElt, "attc", "attc_4", completeType⟩]

/-- A `complete` description with two intI rows whose `pos_end` differ
(first 500, last 700), and one attC hit spanning `[600, 650]`. -/
def feC2cx : List DescRow :=
  [⟨100, 500, 1, "protein", intIAnnot, "intersection_tyr_intI", completeType⟩,
   ⟨300, 700, 1, "protein", intIAnnot, "intersection_tyr_intI", completeType⟩,
   ⟨600, 650, 1, attCElt, "attc", "attc_4", completeType⟩]

/-- An `In0` description: a single integrase spanning `[800, 900]` with a
non-`Phage_integrase` model. -/
def feIn0 : List DescRow :=
  [⟨800, 900, 1, "protein", intIAnnot, "intersection_tyr_intI", in0Type⟩]

/-- A `complete` description whose attC cluster spans `[1000, 1050]` with
the integrase to its right, spanning `[2000, 2100]`: the code's own
left-test gives `(1000 - 2100) % 10000 = 8900`, not smaller than
`(2000 - 1050) % 10000 = 950`, so `integrase_is_left = False` here. -/
def feC5R : List DescRow :=
  [⟨1000, 1050, 1, attCElt, "attc", "attc_4", completeType⟩,
   ⟨2000, 2100, 1, "protein", intIAnnot, "intersection_tyr_intI",
     completeType⟩]

/-- Two exhaustive-search hits: first row ends at 950, last row begins at
5000. -/
def dmC5 : List Row := [mkRow 940 950 plusSens 1, mkRow 5000 5050 plusSens 1]

/-- A `local_max` collaborator that finds nothing. -/
def lmNone : LocalMaxFn := fun _ _ _ => []

/-- An `expand` collaborator that returns its accumulated table unchanged. -/
def exKeep : ExpandFn := fun _ _ m _ _ _ => m

/-- A `local_max` collaborator that always returns the two hits of `dmC5`. -/
def lmC5 : LocalMaxFn := fun _ _ _ => dmC5

/-- An `expand` collaborator that records the two expansion directives it
receives, encoding `search_left` in the returned row's `pos_beg` and
`search_right` in its `pos_end` (1 for true, 0 for false). -/
def exProbe : ExpandFn := fun _ _ _ _ gl gr =>
  [mkRow (if gl then 1 else 0) (if gr then 1 else 0) plusSens 1]

/-- An integron description on which `branchDispatch` runs no branch body:
its rows are not all `complete`, not all `CALIN`, and either not all `In0`
or contain a `Phage_integrase` model. -/
def skipsDispatch (g : List DescRow) : Prop :=
  (g.all fun r => r.type == completeType) = false ∧
  (g.all fun r => r.type == calinType) = false ∧
  ((g.all fun r => r.type == in0Type) = false ∨
    (g.all fun r => r.model ≠ phageModel) = false)

/-- A palindromic hit on the plus strand with the lower e-value. -/
def palA : Row := mkRow 100 150 plusSens 1

/-- The same genomic start matched on the minus strand, higher e-value. -/
def palB : Row := mkRow 100 150 minusSens 2

/-- A `CALIN` description with one attC row spanning `[200, 260]`. -/
def feCal : List DescRow :=
  [⟨200, 260, 1, attCElt, "attc", "attc_4", calinType⟩]

/-- An accumulated state already containing a hit whose `pos_beg` is 200. -/
def stCal : MaxState :=
  ⟨[mkRow 200 260 plusSens 1], [0], none⟩

/-! ## Lemmas about keyed deduplication -/

theorem mem_of_mem_dropDupBy {α κ : Type} [DecidableEq κ] (key : α → κ)
    {a : α} : ∀ {l : List α}, a ∈ dropDupBy key l → a ∈ l := by
  intro l
  induction l using dropDupBy.induct key with
  | case1 => simp [dropDupBy]
  | case2 x xs ih =>
    intro h
    rw [dropDupBy] at h
    rcases List.mem_cons.mp h with h | h
    · exact h ▸ List.mem_cons_self x xs
    · exact List.mem_cons_of_mem x (List.mem_of_mem_filter (ih h))

theorem pairwise_dropDupBy {α κ : Type} [DecidableEq κ] (key : α → κ) :
    ∀ (l : List α), (dropDupBy key l).Pairwise fun a b => key a ≠ key b := by
  intro l
  induction l using dropDupBy.induct key with
  | case1 => simp [dropDupBy]
  | case2 x xs ih =>
    rw [dropDupBy]
    refine List.pairwise_cons.mpr ⟨fun b hb => ?_, ih⟩
    have hb2 : key b ≠ key x := by
      simpa using List.of_mem_filter (mem_of_mem_dropDupBy key hb)
    exact fun h => hb2 h.symm

theorem dropDupBy_eq_self_of_pairwise {α κ : Type} [DecidableEq κ]
    (key : α → κ) : ∀ (l : List α),
    (l.Pairwise fun a b => key a ≠ key b) → dropDupBy key l = l := by
  intro l
  induction l using dropDupBy.induct key with
  | case1 => intro _; simp [dropDupBy]
  | case2 x xs ih =>
    intro hp
    rcases List.pairwise_cons.mp hp with ⟨hx, hxs⟩
    have hfilter : (xs.filter fun r => key r ≠ key x) = xs := by
      refine List.filter_eq_self.mpr fun b hb => ?_
      simpa using fun h => (hx b hb) h.symm
    rw [hfilter] at ih
    rw [dropDupBy, hfilter, ih hxs]

theorem take_one_eq_head {α : Type} :
    ∀ (l : List α), l.take 1 = l.head?.toList := by
  intro l
  cases l with
  | nil => rfl
  | cons x xs => simp [List.take_one]

theorem filter_dropDupBy {α κ : Type} [DecidableEq κ] (key : α → κ)
    (p : κ) : ∀ (l : List α),
    (dropDupBy key l).filter (fun r => key r == p) =
      (l.filter fun r => key r == p).take 1 := by
  intro l
  induction l using dropDupBy.induct key with
  | case1 => simp [dropDupBy]
  | case2 x xs ih =>
    rw [dropDupBy]
    by_cases hx : key x = p
    · have hnil : ((dropDupBy key (xs.filter fun r => key r ≠ key x)).filter
          fun r => key r == p) = [] := by
        refine List.filter_eq_nil_iff.mpr fun b hb => ?_
        have hb2 : key b ≠ key x := by
          simpa using List.of_mem_filter (mem_of_mem_dropDupBy key hb)
        simpa using fun h => hb2 (h.trans hx.symm)
      have hxp : ((fun r => key r == p) x) = true := by simpa using hx
      rw [List.filter_cons_of_pos (p := fun r => key r == p) hxp, hnil,
        List.filter_cons_of_pos (p := fun r => key r == p) hxp]
      simp
    · have hxp : ¬ ((fun r => key r == p) x) = true := by simpa using hx
      have hcomm : ((xs.filter fun r => key r ≠ key x).filter
          fun r => key r == p) = xs.filter fun r => key r == p := by
        rw [List.filter_filter]
        refine List.filter_congr fun b _ => ?_
        by_cases hb : key b = p
        · have hbx : key b ≠ key x := fun h => hx (h.symm.trans hb)
          have hpx : ¬ p = key x := fun h => hx h.symm
          simp [hb, hbx, hpx]
        · simp [hb]
      rw [List.filter_cons_of_neg (p := fun r => key r == p) hxp,
        List.filter_cons_of_neg (p := fun r => key r == p) hxp, ← hcomm]
      exact ih

/-! ## Lemmas about `search_attc` -/

theorem wrapMerge_merges (size d : Int) (c0 cl : List Row)
    (mid : List (List Row)) (_h0 : c0 ≠ []) (_hl : cl ≠ [])
    (hgap : ((c0.headD defRow).pos_beg - (cl.getLastD defRow).pos_beg) % size
      < d) :
    wrapMerge size d (c0 :: (mid ++ [cl])) = (cl ++ c0) :: mid := by
  have hlen : (c0 :: (mid ++ [cl])).length > 1 := by simp
  have hlast : (c0 :: (mid ++ [cl])).getLastD [] = cl := by
    show ((c0 :: mid) ++ [cl]).getLastD [] = cl
    exact List.getLastD_concat _ _ _
  have hhead : (c0 :: (mid ++ [cl])).headD [] = c0 := rfl
  rw [wrapMerge, if_pos hlen, hhead, hlast, if_pos hgap]
  have hdrop : ((c0 :: (mid ++ [cl])).drop 1).dropLast = mid := by
    simp
  rw [hdrop]

theorem hasGapOver_eq_false_of_chain (d : Int) :
    ∀ {l : List Row},
      List.Chain' (fun a b => b.pos_beg - a.pos_beg ≤ d) l →
      hasGapOver d l = false
  | [], _ => rfl
  | [_], _ => rfl
  | a :: b :: t, h => by
    rcases List.chain'_cons.mp h with ⟨h1, h2⟩
    rw [hasGapOver]
    simp only [Bool.or_eq_false_iff]
    exact ⟨by simpa using not_lt.mpr h1, hasGapOver_eq_false_of_chain d h2⟩

theorem splitAtGapsAux_length (d : Int) :
    ∀ (rest : List Row) (prev : Row) (cur : List Row),
      (splitAtGapsAux d cur prev rest).length = gapCountFrom d prev rest + 1
  | [], _, _ => rfl
  | y :: ys, prev, cur => by
    rw [splitAtGapsAux, gapCountFrom]
    by_cases hg : y.pos_beg - prev.pos_beg > d
    · rw [if_pos hg, if_pos hg, List.length_cons,
        splitAtGapsAux_length d ys y [y]]
      omega
    · rw [if_neg hg, if_neg hg, splitAtGapsAux_length d ys y (y :: cur)]
      omega

theorem splitAtGaps_length (d : Int) (x : Row) (xs : List Row) :
    (splitAtGaps d (x :: xs)).length = gapCount d (x :: xs) + 1 := by
  rw [splitAtGaps, gapCount]
  exact splitAtGapsAux_length d xs x [x]

theorem uniform_strand_filters (df : List Row) (s : String)
    (hs : ∀ r ∈ df, r.sens = s) :
    (plusStrand df = df ∧ minusStrand df = []) ∨
      (plusStrand df = [] ∧ minusStrand df = df) ∨
      (plusStrand df = [] ∧ minusStrand df = []) := by
  by_cases hp : s = plusSens
  · refine Or.inl ⟨List.filter_eq_self.mpr fun r hr => ?_, ?_⟩
    · simp [hs r hr, hp]
    · refine List.filter_eq_nil_iff.mpr fun r hr => ?_
      simp [hs r hr, hp, plusSens, minusSens]
  · by_cases hm : s = minusSens
    · refine Or.inr (Or.inl ⟨?_, List.filter_eq_self.mpr fun r hr => ?_⟩)
      · refine List.filter_eq_nil_iff.mpr fun r hr => ?_
        simpa [hs r hr] using hp
      · simp [hs r hr, hm]
    · refine Or.inr (Or.inr ⟨?_, ?_⟩)
      · refine List.filter_eq_nil_iff.mpr fun r hr => ?_
        simpa [hs r hr] using fun h => hp h
      · refine List.filter_eq_nil_iff.mpr fun r hr => ?_
        simpa [hs r hr] using fun h => hm h

theorem searchAttc_single (df : List Row) (s : String) (d size : Int)
    (hne : df ≠ []) (hs : ∀ r ∈ df, r.sens = s)
    (hchain : List.Chain' (fun a b => b.pos_beg - a.pos_beg ≤ d) df) :
    search_attc df true d size = [df] := by
  have hdfgap : hasGapOver d df = false :=
    hasGapOver_eq_false_of_chain d hchain
  have hempty : df.isEmpty = false := by
    cases df with
    | nil => exact absurd rfl hne
    | cons x xs => rfl
  rcases uniform_strand_filters df s hs with ⟨h1, h2⟩ | ⟨h1, h2⟩ | ⟨h1, h2⟩ <;>
    simp [search_attc, searchAttcCore, h1, h2, hdfgap, hempty, hasGapOver]

/-! ## Lemmas about the stable sort and palindrome deduplication -/

theorem filter_orderedInsert_of_ne (p : Int) (x : Row) (hx : x.pos_beg ≠ p) :
    ∀ (l : List Row),
      (List.orderedInsert rowLe x l).filter (fun r => r.pos_beg == p) =
        l.filter fun r => r.pos_beg == p
  | [] => by simp [List.orderedInsert, hx]
  | b :: t => by
    rw [List.orderedInsert]
    by_cases hxb : rowLe x b
    · rw [if_pos hxb]
      simp [List.filter_cons, hx]
    · rw [if_neg hxb]
      simp only [List.filter_cons, filter_orderedInsert_of_ne p x hx t]

theorem head_filter_orderedInsert (p : Int) (x : Row) (hx : x.pos_beg = p) :
    ∀ (l : List Row), l.Sorted rowLe →
      ((List.orderedInsert rowLe x l).filter
          (fun r => r.pos_beg == p)).head? =
        survStep x ((l.filter fun r => r.pos_beg == p).head?)
  | [], _ => by simp [List.orderedInsert, hx, survStep]
  | b :: t, hs => by
    rw [List.orderedInsert]
    by_cases hxb : rowLe x b
    · rw [if_pos hxb]
      have hqx : ((fun r => r.pos_beg == p) x) = true := by simpa using hx
      rw [List.filter_cons_of_pos (p := fun r : Row => r.pos_beg == p) hqx]
      cases hh : ((b :: t).filter fun r => r.pos_beg == p).head? with
      | none => simp [survStep, hh]
      | some h =>
        have hmemf : h ∈ (b :: t).filter fun r => r.pos_beg == p :=
          List.mem_of_mem_head? (by simp [hh])
        have hkey : h.pos_beg = p := by
          simpa using List.of_mem_filter hmemf
        have hmem : h ∈ b :: t := List.mem_of_mem_filter hmemf
        have hxh : rowLe x h := by
          rcases List.mem_cons.mp hmem with rfl | hmemt
          · exact hxb
          · exact IsTrans.trans (r := rowLe) x b h hxb
              (List.rel_of_sorted_cons hs h hmemt)
        have hev : x.evalue ≤ h.evalue := by
          rcases hxh with hlt | ⟨_, hev⟩
          · rw [hx, hkey] at hlt
            exact absurd hlt (lt_irrefl p)
          · exact hev
        simp [survStep, hh, hev]
    · rw [if_neg hxb]
      by_cases hbp : b.pos_beg = p
      · have hqb : ((fun r => r.pos_beg == p) b) = true := by simpa using hbp
        rw [List.filter_cons_of_pos (p := fun r : Row => r.pos_beg == p) hqb,
          List.filter_cons_of_pos (p := fun r : Row => r.pos_beg == p) hqb]
        have hnotle : ¬ x.evalue ≤ b.evalue := fun hle =>
          hxb (Or.inr ⟨hx.trans hbp.symm, hle⟩)
        simp [survStep, hnotle]
      · have hqb : ¬ ((fun r => r.pos_beg == p) b) = true := by simpa using hbp
        rw [List.filter_cons_of_neg (p := fun r : Row => r.pos_beg == p) hqb,
          List.filter_cons_of_neg (p := fun r : Row => r.pos_beg == p) hqb]
        exact head_filter_orderedInsert p x hx t hs.of_cons

theorem head_filter_insertionSort (p : Int) :
    ∀ (df : List Row),
      ((List.insertionSort rowLe df).filter
        (fun r => r.pos_beg == p)).head? = specSurvivor p df
  | [] => rfl
  | x :: xs => by
    rw [List.insertionSort]
    by_cases hx : x.pos_beg = p
    · rw [head_filter_orderedInsert p x hx _
        (List.sorted_insertionSort rowLe xs),
        head_filter_insertionSort p xs, specSurvivor]
      cases hsv : specSurvivor p xs with
      | none => simp [survStep, hx]
      | some r => by_cases hev : x.evalue ≤ r.evalue <;> simp [survStep, hx, hev]
    · rw [filter_orderedInsert_of_ne p x hx,
        head_filter_insertionSort p xs, specSurvivor]
      cases hsv : specSurvivor p xs with
      | none => simp [hx]
      | some r => simp [hx]

theorem dedupPalindromes_filter (df : List Row) (p : Int) :
    (dedupPalindromes df).filter (fun r => r.pos_beg == p) =
      (specSurvivor p df).toList := by
  rw [dedupPalindromes, dropDupPosBeg, filter_dropDupBy Row.pos_beg p,
    take_one_eq_head, head_filter_insertionSort]

theorem specSurvivor_eq_none (p : Int) :
    ∀ (df : List Row), specSurvivor p df = none ↔ ∀ x ∈ df, x.pos_beg ≠ p
  | [] => by simp [specSurvivor]
  | x :: xs => by
    rw [specSurvivor]
    cases hsv : specSurvivor p xs with
    | none =>
      have ih := (specSurvivor_eq_none p xs).mp hsv
      by_cases hx : x.pos_beg = p
      · simp [hx]
      · simp only [if_neg hx]
        constructor
        · intro _ y hy
          rcases List.mem_cons.mp hy with rfl | hy
          · exact hx
          · exact ih y hy
        · intro _
          trivial
    | some r =>
      constructor
      · intro h
        by_cases hc : x.pos_beg = p ∧ x.evalue ≤ r.evalue <;>
          simp [hc] at h
      · intro h
        exact absurd hsv (by
          rw [(specSurvivor_eq_none p xs).mpr
            fun y hy => h y (List.mem_cons_of_mem x hy)]
          simp)

theorem specSurvivor_spec (p : Int) :
    ∀ (df : List Row) (r : Row), specSurvivor p df = some r →
      r.pos_beg = p ∧ r ∈ df ∧
      (∃ pre post, df = pre ++ r :: post ∧
        ∀ x ∈ pre, x.pos_beg = p → r.evalue < x.evalue) ∧
      (∀ x ∈ df, x.pos_beg = p → r.evalue ≤ x.evalue)
  | [], r => by intro h; exact absurd h (by simp [specSurvivor])
  | x :: xs, r => by
    intro h
    rw [specSurvivor] at h
    cases hsv : specSurvivor p xs with
    | none =>
      simp only [hsv] at h
      have hnone := (specSurvivor_eq_none p xs).mp hsv
      by_cases hx : x.pos_beg = p
      · rw [if_pos hx] at h
        obtain rfl : x = r := by simpa using h
        refine ⟨hx, List.mem_cons_self x xs, ⟨[], xs, by simp, by simp⟩,
          fun y hy hyp => ?_⟩
        rcases List.mem_cons.mp hy with rfl | hy
        · exact le_refl _
        · exact absurd hyp (hnone y hy)
      · rw [if_neg hx] at h
        exact absurd h (by simp)
    | some r0 =>
      simp only [hsv] at h
      obtain ⟨hkey0, hmem0, ⟨pre0, post0, hsplit0, hpre0⟩, hmin0⟩ :=
        specSurvivor_spec p xs r0 hsv
      by_cases hc : x.pos_beg = p ∧ x.evalue ≤ r0.evalue
      · rw [if_pos hc] at h
        obtain rfl : x = r := by simpa using h
        refine ⟨hc.1, List.mem_cons_self x xs, ⟨[], xs, by simp, by simp⟩,
          fun y hy hyp => ?_⟩
        rcases List.mem_cons.mp hy with rfl | hy
        · exact le_refl _
        · exact hc.2.trans (hmin0 y hy hyp)
      · rw [if_neg hc] at h
        obtain rfl : r0 = r := by simpa using h
        refine ⟨hkey0, List.mem_cons_of_mem x hmem0,
          ⟨x :: pre0, post0, by rw [hsplit0]; rfl, fun y hy hyp => ?_⟩,
          fun y hy hyp => ?_⟩
        · rcases List.mem_cons.mp hy with rfl | hy
          · rcases not_and_or.mp hc with hk | hev
            · exact absurd hyp hk
            · exact lt_of_not_le hev
          · exact hpre0 y hy hyp
        · rcases List.mem_cons.mp hy with rfl | hy
          · rcases not_and_or.mp hc with hk | hev
            · exact absurd hyp hk
            · exact le_of_lt (lt_of_not_le hev)
          · exact hmin0 y hy hyp

/-! ## Lemmas about `find_attc_max` -/

theorem processIntegron_ok_inv (lm : LocalMaxFn) (ex : ExpandFn)
    (size d : Int) (c : Bool) (st : MaxState) (fe : List DescRow)
    (st' : MaxState)
    (h : processIntegron lm ex size d c st fe = .ok st') :
    st'.rows.Pairwise (fun a b => rowKey a ≠ rowKey b) ∧
      st'.idx = (List.range st'.rows.length).map Int.ofNat := by
  rw [processIntegron] at h
  cases hb : branchDispatch lm ex size d c st fe with
  | error e =>
    rw [hb] at h
    exact absurd h (by simp [Except.map])
  | ok pr =>
    rw [hb] at h
    simp only [Except.map] at h
    obtain rfl : finishIteration st pr = st' := by simpa using h
    exact ⟨pairwise_dropDupBy rowKey _, rfl⟩

theorem foldlM_processIntegron_inv (lm : LocalMaxFn) (ex : ExpandFn)
    (size d : Int) (c : Bool) :
    ∀ (igs : List (List DescRow)) (st t : MaxState),
      List.foldlM (processIntegron lm ex size d c) st igs = .ok t →
      t = st ∨
        (t.rows.Pairwise (fun a b => rowKey a ≠ rowKey b) ∧
          t.idx = (List.range t.rows.length).map Int.ofNat)
  | [], st, t => by
    intro h
    left
    have h2 : st = t := by simpa [List.foldlM, pure, Except.pure] using h
    exact h2.symm
  | g :: gs, st, t => by
    intro h
    rw [List.foldlM_cons] at h
    cases hp : processIntegron lm ex size d c st g with
    | error e =>
      rw [hp] at h
      exact absurd h (by simp [Bind.bind, Except.bind])
    | ok st1 =>
      rw [hp] at h
      simp only [Bind.bind, Except.bind] at h
      rcases foldlM_processIntegron_inv lm ex size d c gs st1 t h with rfl | hv
      · exact Or.inr (processIntegron_ok_inv lm ex size d c st g t hp)
      · exact Or.inr hv

theorem processIntegron_skip (lm : LocalMaxFn) (ex : ExpandFn)
    (size d : Int) (c : Bool) (g : List DescRow) (hg : skipsDispatch g) :
    processIntegron lm ex size d c initState g = .ok initState := by
  obtain ⟨h1, h2, h3⟩ := hg
  have hbr : branchDispatch lm ex size d c initState g = .ok ([], none) := by
    rcases h3 with h3 | h3
    · simp [branchDispatch, h1, h2, h3]
    · have h3x : ¬ ∀ x ∈ g, ¬ x.model = phageModel := fun hall => by
        have hall2 : (g.all fun r => r.model ≠ phageModel) = true :=
          List.all_eq_true.mpr fun x hx => by simpa using hall x hx
        rw [hall2] at h3
        exact absurd h3 (by simp)
      simp [branchDispatch, h1, h2, in0Branch, h3x]
      intro _
      rfl
  rw [processIntegron, hbr]
  simp [Except.map, finishIteration, initState, dropDupRowKey, dropDupBy]

theorem foldlM_skips (lm : LocalMaxFn) (ex : ExpandFn)
    (size d : Int) (c : Bool) :
    ∀ (pre rest : List (List DescRow)),
      (∀ g ∈ pre, skipsDispatch g) →
      List.foldlM (processIntegron lm ex size d c) initState (pre ++ rest) =
        List.foldlM (processIntegron lm ex size d c) initState rest
  | [], _, _ => rfl
  | g :: pre, rest, hp => by
    rw [List.cons_append, List.foldlM_cons,
      processIntegron_skip lm ex size d c g (hp g (List.mem_cons_self g pre))]
    simp only [Bind.bind, Except.bind]
    exact foldlM_skips lm ex size d c pre rest
      fun g2 hg2 => hp g2 (List.mem_cons_of_mem g hg2)

theorem in0Branch_unbound (lm : LocalMaxFn) (ex : ExpandFn)
    (size d : Int) (c : Bool) (fe : List DescRow) (wb we : Int)
    (hph : (fe.all fun r => r.model ≠ phageModel) = true)
    (hw : in0WindowCalc fe size d c = .ok (wb, we)) :
    in0Branch lm ex size d c fe none = .error unboundStrandErr := by
  have hph2 : ∀ x ∈ fe, ¬ x.model = phageModel := by
    intro x hx
    simpa using List.all_eq_true.mp hph x hx
  rw [in0Branch]
  simp [hph2, hw, Bind.bind, Except.bind]
  intro x hx hm
  exact absurd hm (hph2 x hx)

theorem calinBranch_blocked (lm : LocalMaxFn) (ex : ExpandFn)
    (size d : Int) (c : Bool) (fe : List DescRow) (begs : List Int)
    (hb : (fe.filter fun r => begs.contains r.pos_beg).isEmpty = false) :
    calinBranch lm ex size d c fe begs = .ok ([], none) := by
  have hb2 : ¬ ∀ a ∈ fe, a.pos_beg ∉ begs := by
    simp only [List.isEmpty_eq_false, ne_eq, List.filter_eq_nil_iff] at hb
    simpa using hb
  rw [calinBranch]
  simp [hb2, pure, Except.pure]

theorem calinBranch_runs (lm : LocalMaxFn) (ex : ExpandFn)
    (size d : Int) (c : Bool) (fe : List DescRow) (begs : List Int)
    (wb we : Int) (s0 : Int) (gl gr : Bool)
    (hb : (fe.filter fun r => begs.contains r.pos_beg).isEmpty = true)
    (hw : calinWindowCalc fe size d c = .ok (wb, we))
    (hs : vfirst ((attcRows fe).map DescRow.strand) = .ok s0)
    (hne : (lm wb we (strandLabel s0)).isEmpty = false)
    (hgd : calinGoDirs fe (lm wb we (strandLabel s0)) size d = .ok (gl, gr)) :
    calinBranch lm ex size d c fe begs =
      .ok (ex wb we (lm wb we (strandLabel s0)) (lm wb we (strandLabel s0))
          gl gr,
        some (strandLabel s0)) := by
  have hb2 : ∀ a ∈ fe, a.pos_beg ∉ begs := by
    simp only [List.isEmpty_iff, List.filter_eq_nil_iff] at hb
    intro a ha
    simpa using hb a ha
  rw [calinBranch]
  simp [hb2, hw, hs, hne, hgd, Bind.bind, Except.bind]
  rw [if_pos hb2]
  rfl

theorem processIntegron_calin_blocked (lm : LocalMaxFn) (ex : ExpandFn)
    (size d : Int) (c : Bool) (st : MaxState) (fe : List DescRow)
    (hNC : (fe.all fun r => r.type == completeType) = false)
    (hCAL : (fe.all fun r => r.type == calinType) = true)
    (hb : (fe.filter fun r =>
      (st.rows.map Row.pos_beg).contains r.pos_beg).isEmpty = false) :
    processIntegron lm ex size d c st fe =
      .ok ⟨dropDupRowKey st.rows,
        (List.range (dropDupRowKey st.rows).length).map Int.ofNat,
        st.strandVar⟩ := by
  rw [processIntegron, branchDispatch]
  simp [hNC, hCAL, calinBranch_blocked lm ex size d c fe _ hb, Except.map,
    finishIteration]

theorem completeWindowCalc_spec (fe : List DescRow) (size d : Int)
    (aBeg0 iEnd0 iBeg0 aEndLast iEndLast : Int)
    (hA : vfirst ((attcRows fe).map DescRow.pos_beg) = .ok aBeg0)
    (hIe : vfirst ((intIRows fe).map DescRow.pos_end) = .ok iEnd0)
    (hIb : vfirst ((intIRows fe).map DescRow.pos_beg) = .ok iBeg0)
    (hAe : vlast ((attcRows fe).map DescRow.pos_end) = .ok aEndLast)
    (hIel : vlast ((intIRows fe).map DescRow.pos_end) = .ok iEndLast) :
    completeWindowCalc fe size d true =
      .ok (decide ((aBeg0 - iEnd0) % size < (iBeg0 - aEndLast) % size),
        if (aBeg0 - iEnd0) % size < (iBeg0 - aEndLast) % size
        then ((iEnd0 - 0) % size, (aEndLast + d) % size)
        else ((aBeg0 - d) % size, (iEndLast + 0) % size)) := by
  rw [completeWindowCalc]
  simp only [hA, hIe, hIb, hAe, hIel, Bind.bind, Except.bind]
  by_cases hc : (aBeg0 - iEnd0) % size < (iBeg0 - aEndLast) % size
  · simp [hc, adjustWindow, pure, Except.pure]
  · simp [hc, hIel, adjustWindow, Bind.bind, Except.bind, pure, Except.pure]

theorem goDirs_spec (fe : List DescRow) (dfMax : List Row) (size d : Int)
    (isLeft : Bool) (aBeg0 aEndLast dmEnd0 dmBegLast : Int)
    (hA : vfirst ((attcRows fe).map DescRow.pos_beg) = .ok aBeg0)
    (hAe : vlast ((attcRows fe).map DescRow.pos_end) = .ok aEndLast)
    (hf : vfirst (dfMax.map Row.pos_end) = .ok dmEnd0)
    (hl : vlast (dfMax.map Row.pos_beg) = .ok dmBegLast) :
    completeGoDirs fe dfMax size d isLeft =
      .ok (decide ((aBeg0 - dmEnd0) % size < d) && !isLeft,
        decide ((dmBegLast - aEndLast) % size < d) && isLeft) ∧
    calinGoDirs fe dfMax size d =
      .ok (decide ((aBeg0 - dmEnd0) % size < d),
        decide ((dmBegLast - aEndLast) % size < d)) := by
  constructor
  · rw [completeGoDirs]
    simp [hA, hAe, hf, hl, Bind.bind, Except.bind, pure, Except.pure]
  · rw [calinGoDirs]
    simp [hA, hAe, hf, hl, Bind.bind, Except.bind, pure, Except.pure]

theorem adjustWindow_false_bounds (size wb dtl we dtr : Int) :
    0 ≤ (adjustWindow false size wb dtl we dtr).1 ∧
      (adjustWindow false size wb dtl we dtr).2 ≤ size := by
  simp only [adjustWindow, Bool.false_eq_true, if_false]
  exact ⟨le_max_left 0 _, min_le_left size _⟩

theorem completeWindowCalc_linear_bounds (fe : List DescRow) (size d : Int)
    (L : Bool) (wb we : Int)
    (h : completeWindowCalc fe size d false = .ok (L, wb, we)) :
    0 ≤ wb ∧ we ≤ size := by
  rw [completeWindowCalc] at h
  simp only [Bind.bind, Except.bind] at h
  cases h1 : vfirst ((attcRows fe).map DescRow.pos_beg) with
  | error e => rw [h1] at h; exact absurd h (by simp)
  | ok aBeg0 =>
  rw [h1] at h
  cases h2 : vfirst ((intIRows fe).map DescRow.pos_end) with
  | error e => rw [h2] at h; exact absurd h (by simp)
  | ok iEnd0 =>
  rw [h2] at h
  cases h3 : vfirst ((intIRows fe).map DescRow.pos_beg) with
  | error e => rw [h3] at h; exact absurd h (by simp)
  | ok iBeg0 =>
  rw [h3] at h
  cases h4 : vlast ((attcRows fe).map DescRow.pos_end) with
  | error e => rw [h4] at h; exact absurd h (by simp)
  | ok aEndLast =>
  rw [h4] at h
  by_cases hc : (aBeg0 - iEnd0) % size < (iBeg0 - aEndLast) % size
  · obtain ⟨-, hadj⟩ : L = true ∧
        adjustWindow false size iEnd0 0 aEndLast d = (wb, we) := by
      simpa [hc, pure, Except.pure] using h
    have hbd := adjustWindow_false_bounds size iEnd0 0 aEndLast d
    rw [hadj] at hbd
    exact hbd
  · simp only [hc, decide_eq_true_eq, if_neg, decide_eq_false_iff_not,
      Bool.false_eq_true] at h
    rw [if_neg (by simp [hc])] at h
    cases h5 : vlast ((intIRows fe).map DescRow.pos_end) with
    | error e => rw [h5] at h; exact absurd h (by simp)
    | ok iEndLast =>
    rw [h5] at h
    obtain ⟨-, hadj⟩ : L = false ∧
        adjustWindow false size aBeg0 d iEndLast 0 = (wb, we) := by
      simpa [hc, pure, Except.pure] using h
    have hbd := adjustWindow_false_bounds size aBeg0 d iEndLast 0
    rw [hadj] at hbd
    exact hbd

theorem calinWindowCalc_linear_bounds (fe : List DescRow) (size d : Int)
    (wb we : Int)
    (h : calinWindowCalc fe size d false = .ok (wb, we)) :
    0 ≤ wb ∧ we ≤ size := by
  rw [calinWindowCalc] at h
  simp only [Bind.bind, Except.bind] at h
  cases h1 : vfirst ((attcRows fe).map DescRow.pos_beg) with
  | error e => rw [h1] at h; exact absurd h (by simp)
  | ok wb0 =>
  rw [h1] at h
  cases h2 : vlast ((attcRows fe).map DescRow.pos_end) with
  | error e => rw [h2] at h; exact absurd h (by simp)
  | ok we0 =>
  rw [h2] at h
  obtain hadj : adjustWindow false size wb0 d we0 d = (wb, we) := by
    simpa [pure, Except.pure] using h
  have hbd := adjustWindow_false_bounds size wb0 d we0 d
  rw [hadj] at hbd
  exact hbd

theorem in0WindowCalc_linear_bounds (fe : List DescRow) (size d : Int)
    (wb we : Int)
    (h : in0WindowCalc fe size d false = .ok (wb, we)) :
    0 ≤ wb ∧ we ≤ size := by
  rw [in0WindowCalc] at h
  simp only [Bind.bind, Except.bind] at h
  cases h1 : vfirst ((intIRows fe).map DescRow.pos_beg) with
  | error e => rw [h1] at h; exact absurd h (by simp)
  | ok wb0 =>
  rw [h1] at h
  cases h2 : vlast ((intIRows fe).map DescRow.pos_end) with
  | error e => rw [h2] at h; exact absurd h (by simp)
  | ok we0 =>
  rw [h2] at h
  obtain hadj : adjustWindow false size wb0 d we0 d = (wb, we) := by
    simpa [pure, Except.pure] using h
  have hbd := adjustWindow_false_bounds size wb0 d we0 d
  rw [hadj] at hbd
  exact hbd

theorem strandPreMerge_length (d : Int) (l : List Row) :
    (strandPreMerge d l).length =
      if l = [] then 0 else gapCount d l + 1 := by
  cases l with
  | nil => simp [strandPreMerge]
  | cons x xs => simp [strandPreMerge, splitAtGaps_length]

theorem dedupPalindromes_of_const_key (l : List Row) (p : Int)
    (hall : ∀ x ∈ l, x.pos_beg = p) :
    dedupPalindromes l = (specSurvivor p l).toList := by
  have hfil : (dedupPalindromes l).filter (fun r => r.pos_beg == p) =
      dedupPalindromes l := by
    apply List.filter_eq_self.mpr
    intro b hb
    rw [dedupPalindromes, dropDupPosBeg] at hb
    have hb2 : b ∈ List.insertionSort rowLe l :=
      mem_of_mem_dropDupBy Row.pos_beg hb
    have hb3 : b ∈ l := (List.perm_insertionSort rowLe l).subset hb2
    simpa using hall b hb3
  rw [← hfil, dedupPalindromes_filter]

theorem calinBranch_zero (lm : LocalMaxFn) (ex : ExpandFn)
    (size d : Int) (c : Bool) (fe : List DescRow) (begs : List Int)
    (wb we : Int) (s0 : Int)
    (hb : (fe.filter fun r => begs.contains r.pos_beg).isEmpty = true)
    (hw : calinWindowCalc fe size d c = .ok (wb, we))
    (hs : vfirst ((attcRows fe).map DescRow.strand) = .ok s0)
    (hz : lm wb we (strandLabel s0) = []) :
    calinBranch lm ex size d c fe begs = .ok ([], some (strandLabel s0)) := by
  have hb2 : ∀ a ∈ fe, a.pos_beg ∉ begs := by
    simp only [List.isEmpty_iff, List.filter_eq_nil_iff] at hb
    intro a ha
    simpa using hb a ha
  rw [calinBranch]
  simp [hb2, hw, hs, hz, Bind.bind, Except.bind, pure, Except.pure]
  exact hb2

theorem in0Branch_zero (lm : LocalMaxFn) (ex : ExpandFn)
    (size d : Int) (c : Bool) (fe : List DescRow) (wb we : Int) (s : String)
    (hph : (fe.all fun r => r.model ≠ phageModel) = true)
    (hw : in0WindowCalc fe size d c = .ok (wb, we))
    (hz : lm wb we s = []) :
    in0Branch lm ex size d c fe (some s) = .ok [] := by
  have hph2 : ∀ x ∈ fe, ¬ x.model = phageModel := by
    intro x hx
    simpa using List.all_eq_true.mp hph x hx
  rw [in0Branch]
  simp [hph2, hw, hz, Bind.bind, Except.bind, pure, Except.pure]

/-! ## Claim theorems -/

/-- C1: for every strand set split by `search_attc` into at least two
sub-tables, if `(first position of the first sub-table - last position of
the last sub-table) % replicon_size` is strictly below `dist_threshold`, the
last sub-table is concatenated in front of the first sub-table and removed
from the list (`wrapMerge`, applied to each strand independently inside
`searchAttcCore`); and in the concrete scenario with rows at `pos_beg`
100, 105, 6000 (all plus strand), `dist_threshold = 5000` and
`replicon_size = 6050`, the result is one cluster whose rows are ordered
`[6000, 100, 105]`. -/
theorem C1_wraparound_merge :
    (∀ (size d : Int) (c0 cl : List Row) (mid : List (List Row)),
      c0 ≠ [] → cl ≠ [] →
      ((c0.headD defRow).pos_beg - (cl.getLastD defRow).pos_beg) % size < d →
      wrapMerge size d (c0 :: (mid ++ [cl])) = (cl ++ c0) :: mid) ∧
    search_attc [r100, r105, r6000] true 5000 6050 = [[r6000, r100, r105]] :=
  ⟨fun size d c0 cl mid h0 hl hgap =>
    wrapMerge_merges size d c0 cl mid h0 hl hgap, by decide⟩

/-- C1 witness: the wraparound merge at the scenario's two sub-tables. -/
theorem C1_wraparound_merge_witness :
    wrapMerge 6050 5000 ([r100, r105] :: ([] ++ [[r6000]])) =
      ([r6000] ++ [r100, r105]) :: [] :=
  C1_wraparound_merge.1 6050 5000 [r100, r105] [r6000] []
    (by decide) (by decide) (by decide)

/-- C2 counterexample: on a `complete` description with two intI rows
(`pos_end` 500 then 700) and one attC row `[600, 650]` on a replicon of size
10000, the code computes `integrase_is_left = true` — it reads the FIRST
intI `pos_end` (500), giving gap 100 — whereas the claim's formula with the
LAST intI `pos_end` (700) yields `(600 - 700) % 10000 = 9900`, which is not
smaller than `(100 - 650) % 10000 = 9450`; so the claim's iff fails here. -/
theorem C2_counterexample :
    completeWindowCalc feC2cx 10000 200 true = .ok (true, 500, 850) ∧
      ¬ ((600 - 700 : Int) % 10000 < (100 - 650 : Int) % 10000) :=
  ⟨by rfl, by decide⟩

/-- C2 (amended): the integrase is deemed left iff
`(first attC pos_beg - FIRST intI pos_end) % replicon_size <
(first intI pos_beg - last attC pos_end) % replicon_size`; if left, the
window begins exactly at the first intI `pos_end` (left extension 0) and
ends `dist_threshold` past the last attC `pos_end`; if right, the window
begins `dist_threshold` before the first attC `pos_beg` and ends exactly at
the LAST intI `pos_end` (the in-range hypotheses make the circular modulo a
no-op); in the concrete scenario (intI `[500,500]`, one attC `[600,650]`,
replicon size 10000, `dist_threshold` 200) the window is `[500, 850]`. -/
theorem C2_amended :
    (∀ (fe : List DescRow) (size d : Int)
      (aBeg0 iEnd0 iBeg0 aEndLast iEndLast : Int),
      vfirst ((attcRows fe).map DescRow.pos_beg) = .ok aBeg0 →
      vfirst ((intIRows fe).map DescRow.pos_end) = .ok iEnd0 →
      vfirst ((intIRows fe).map DescRow.pos_beg) = .ok iBeg0 →
      vlast ((attcRows fe).map DescRow.pos_end) = .ok aEndLast →
      vlast ((intIRows fe).map DescRow.pos_end) = .ok iEndLast →
      0 ≤ iEnd0 → iEnd0 < size →
      0 ≤ aEndLast + d → aEndLast + d < size →
      0 ≤ aBeg0 - d → aBeg0 - d < size →
      0 ≤ iEndLast → iEndLast < size →
      completeWindowCalc fe size d true =
        .ok (decide ((aBeg0 - iEnd0) % size < (iBeg0 - aEndLast) % size),
          if (aBeg0 - iEnd0) % size < (iBeg0 - aEndLast) % size
          then (iEnd0, aEndLast + d)
          else (aBeg0 - d, iEndLast))) ∧
    completeWindowCalc feC2 10000 200 true = .ok (true, 500, 850) := by
  constructor
  · intro fe size d aBeg0 iEnd0 iBeg0 aEndLast iEndLast hA hIe hIb hAe hIel
      h1 h2 h3 h4 h5 h6 h7 h8
    rw [completeWindowCalc_spec fe size d aBeg0 iEnd0 iBeg0 aEndLast iEndLast
      hA hIe hIb hAe hIel]
    by_cases hc : (aBeg0 - iEnd0) % size < (iBeg0 - aEndLast) % size
    · simp [hc, sub_zero, add_zero, Int.emod_eq_of_lt h1 h2,
        Int.emod_eq_of_lt h3 h4]
    · simp [hc, sub_zero, add_zero, Int.emod_eq_of_lt h5 h6,
        Int.emod_eq_of_lt h7 h8]
  · rfl

/-- C2 witness: the amended window formula applied to the scenario. -/
theorem C2_amended_witness :
    completeWindowCalc feC2 10000 200 true =
      .ok (decide ((600 - 500 : Int) % 10000 < (500 - 650 : Int) % 10000),
        if (600 - 500 : Int) % 10000 < (500 - 650 : Int) % 10000
        then ((500 : Int), (650 + 200 : Int))
        else ((600 - 200 : Int), (500 : Int))) :=
  C2_amended.1 feC2 10000 200 600 500 500 650 500 rfl rfl rfl rfl rfl
    (by decide) (by decide) (by decide) (by decide) (by decide) (by decide)
    (by decide) (by decide)

/-- C3: for every non-empty hit table on one strand whose consecutive
`pos_beg` gaps never exceed `dist_threshold`, `search_attc` returns exactly
one cluster containing all rows; and for every hit table, the number of
clusters produced before the wraparound merge equals, per non-empty strand,
the number of gaps strictly exceeding `dist_threshold` plus one, summed
across strands (and under the gap hypothesis `search_attc` indeed takes the
split-then-merge path). -/
theorem C3_cluster_counts :
    (∀ (df : List Row) (s : String) (d size : Int),
      df ≠ [] → (∀ r ∈ df, r.sens = s) →
      List.Chain' (fun a b => b.pos_beg - a.pos_beg ≤ d) df →
      search_attc df true d size = [df]) ∧
    (∀ (df : List Row) (d size : Int),
      hasGapOver d (plusStrand df) = true ∨
        hasGapOver d (minusStrand df) = true →
      search_attc df true d size =
        wrapMerge size d (strandPreMerge d (plusStrand df)) ++
          wrapMerge size d (strandPreMerge d (minusStrand df)) ∧
      (preMergeClusters df d).length =
        (if plusStrand df = [] then 0
          else gapCount d (plusStrand df) + 1) +
        (if minusStrand df = [] then 0
          else gapCount d (minusStrand df) + 1)) := by
  constructor
  · exact fun df s d size hne hs hchain =>
      searchAttc_single df s d size hne hs hchain
  · intro df d size hGap
    constructor
    · rcases hGap with h | h <;> simp [search_attc, searchAttcCore, h]
    · rw [preMergeClusters, List.length_append, strandPreMerge_length,
        strandPreMerge_length]

/-- C3 witness: the single-cluster case on a concrete two-row table and the
cluster count on the concrete three-row scenario table. -/
theorem C3_cluster_counts_witness :
    search_attc [r100, r105] true 5000 6050 = [[r100, r105]] ∧
    (preMergeClusters [r100, r105, r6000] 5000).length =
      (if plusStrand [r100, r105, r6000] = [] then 0
        else gapCount 5000 (plusStrand [r100, r105, r6000]) + 1) +
      (if minusStrand [r100, r105, r6000] = [] then 0
        else gapCount 5000 (minusStrand [r100, r105, r6000]) + 1) :=
  ⟨C3_cluster_counts.1 [r100, r105] plusSens 5000 6050 (by decide)
      (by decide)
      (List.chain'_cons.mpr ⟨by decide, List.chain'_singleton r105⟩),
    (C3_cluster_counts.2 [r100, r105, r6000] 5000 6050
      (Or.inl (by decide))).2⟩

/-- C4: with `keep_palindromes = False`, `search_attc` behaves exactly as if
the table were first sorted by `(pos_beg, evalue)` and reduced to one
survivor per `pos_beg` and then clustered with palindromes kept; the
survivor of each `pos_beg` group is the lowest-e-value row, ties broken by
original row order (it is a member of the group, has minimal e-value, and
every earlier row of the same group has strictly larger e-value); in
particular of two rows with identical `pos_beg` on opposite strands exactly
one survives, the one with the lower e-value, whichever order they come
in. -/
theorem C4_palindrome_dedup :
    (∀ (df : List Row) (d size : Int),
      search_attc df false d size =
        search_attc (dedupPalindromes df) true d size) ∧
    (∀ (df : List Row) (p : Int),
      (dedupPalindromes df).filter (fun r => r.pos_beg == p) =
        (specSurvivor p df).toList) ∧
    (∀ (df : List Row) (p : Int) (r : Row), specSurvivor p df = some r →
      r.pos_beg = p ∧ r ∈ df ∧
      (∃ pre post, df = pre ++ r :: post ∧
        ∀ x ∈ pre, x.pos_beg = p → r.evalue < x.evalue) ∧
      (∀ x ∈ df, x.pos_beg = p → r.evalue ≤ x.evalue)) ∧
    (∀ a b : Row, a.pos_beg = b.pos_beg → a.sens = plusSens →
      b.sens = minusSens → a.evalue < b.evalue →
      dedupPalindromes [a, b] = [a] ∧ dedupPalindromes [b, a] = [a]) := by
  refine ⟨fun df d size => rfl, dedupPalindromes_filter,
    fun df p r h => specSurvivor_spec p df r h, fun a b hpos hsa hsb hev => ?_⟩
  have hall1 : ∀ x ∈ [a, b], x.pos_beg = a.pos_beg := by
    intro x hx
    rcases List.mem_cons.mp hx with rfl | hx
    · rfl
    · rcases List.mem_cons.mp hx with rfl | hx
      · exact hpos.symm
      · exact absurd hx (List.not_mem_nil x)
  have hall2 : ∀ x ∈ [b, a], x.pos_beg = a.pos_beg := by
    intro x hx
    rcases List.mem_cons.mp hx with rfl | hx
    · exact hpos.symm
    · rcases List.mem_cons.mp hx with rfl | hx
      · rfl
      · exact absurd hx (List.not_mem_nil x)
  constructor
  · rw [dedupPalindromes_of_const_key [a, b] a.pos_beg hall1]
    simp [specSurvivor, hpos.symm, le_of_lt hev]
  · rw [dedupPalindromes_of_const_key [b, a] a.pos_beg hall2]
    simp [specSurvivor, hpos.symm, not_le.mpr hev]

/-- C4 witness: the palindrome pair at `pos_beg` 100 in both input orders. -/
theorem C4_palindrome_dedup_witness :
    dedupPalindromes [palA, palB] = [palA] ∧
      dedupPalindromes [palB, palA] = [palA] :=
  C4_palindrome_dedup.2.2.2 palA palB rfl rfl rfl (by decide)

/-- C5 counterexample, at a reachable trace: on `feC5R` (attC `[1000,1050]`,
integrase to the right at `[2000,2100]`, size 10000, threshold 100) the
code itself computes `integrase_is_left = false` (first conjunct, window
`(900, 2100)`), and running the whole complete branch with a `local_max`
returning the two hits of `dmC5` (first row's `pos_end` 950, last row's
`pos_end` 5050) passes `search_left = true, search_right = false` to the
expansion collaborator (second conjunct, observed through `exProbe`; third
conjunct names the directive pair): `go_left` is true because the code
reads `df_max.pos_end.values[0] = 950`, gap `(1000 - 950) % 10000 = 50 <
100`, and the integrase is not left.  The claim's formula instead uses the
new search's RIGHTMOST `pos_end` (5050), whose gap
`(1000 - 5050) % 10000 = 5950` is not below the threshold (fourth
conjunct), so the claim predicts `go_left = false` and fails here. -/
theorem C5_counterexample :
    completeWindowCalc feC5R 10000 100 true = .ok (false, 900, 2100) ∧
    completeBranch lmC5 exProbe 10000 100 true feC5R =
      .ok ([mkRow 1 0 plusSens 1], topStrand) ∧
    completeGoDirs feC5R dmC5 10000 100 false = .ok (true, false) ∧
    ¬ ((1000 - 5050 : Int) % 10000 < 100) :=
  ⟨by rfl, by rfl, by rfl, by decide⟩

/-- C5 (amended): before calling the expansion collaborator, `go_left` is
true iff `(original leftmost attC pos_beg - the FIRST row's pos_end of the
new search) % replicon_size` is below `dist_threshold` AND the integrase is
not left, and `go_right` is true iff `(the LAST row's pos_beg of the new
search - original rightmost attC pos_end) % replicon_size` is below
`dist_threshold` AND the integrase is left; the CALIN branch computes the
same two gap conditions without the integrase gating. -/
theorem C5_amended :
    ∀ (fe : List DescRow) (dfMax : List Row) (size d : Int) (isLeft : Bool)
      (aBeg0 aEndLast dmEnd0 dmBegLast : Int),
      vfirst ((attcRows fe).map DescRow.pos_beg) = .ok aBeg0 →
      vlast ((attcRows fe).map DescRow.pos_end) = .ok aEndLast →
      vfirst (dfMax.map Row.pos_end) = .ok dmEnd0 →
      vlast (dfMax.map Row.pos_beg) = .ok dmBegLast →
      completeGoDirs fe dfMax size d isLeft =
        .ok (decide ((aBeg0 - dmEnd0) % size < d) && !isLeft,
          decide ((dmBegLast - aEndLast) % size < d) && isLeft) ∧
      calinGoDirs fe dfMax size d =
        .ok (decide ((aBeg0 - dmEnd0) % size < d),
          decide ((dmBegLast - aEndLast) % size < d)) :=
  fun fe dfMax size d isLeft aBeg0 aEndLast dmEnd0 dmBegLast hA hAe hf hl =>
    goDirs_spec fe dfMax size d isLeft aBeg0 aEndLast dmEnd0 dmBegLast
      hA hAe hf hl

/-- C5 witness: the expansion directives at the counterexample's input,
with `isLeft = false` as the code itself computes on `feC5R`. -/
theorem C5_amended_witness :
    completeGoDirs feC5R dmC5 10000 100 false =
      .ok (decide ((1000 - 950 : Int) % 10000 < 100) && !false,
        decide ((5000 - 1050 : Int) % 10000 < 100) && false) ∧
    calinGoDirs feC5R dmC5 10000 100 =
      .ok (decide ((1000 - 950 : Int) % 10000 < 100),
        decide ((5000 - 1050 : Int) % 10000 < 100)) :=
  C5_amended feC5R dmC5 10000 100 false 1000 1050 950 5000 rfl rfl rfl rfl

/-- C6: a CALIN integron is exhaustively re-searched iff no `pos_beg` of its
description rows is a member of the `pos_beg` column of the accumulated
table (literal `pos_beg` membership — the gate in the embedding is
`(st.rows.map Row.pos_beg).contains r.pos_beg`, not interval overlap).
When the check fails, the iteration is independent of both collaborators
and leaves the accumulated rows unchanged (given the running no-duplicate
invariant); when the check passes, the iteration's result is the
deduplicated concatenation of the accumulated rows with the searched and
expanded hits. -/
theorem C6_calin_gating :
    (∀ (lm lm2 : LocalMaxFn) (ex ex2 : ExpandFn) (size d : Int) (c : Bool)
      (st : MaxState) (fe : List DescRow),
      (fe.all fun r => r.type == completeType) = false →
      (fe.all fun r => r.type == calinType) = true →
      (fe.filter fun r =>
        (st.rows.map Row.pos_beg).contains r.pos_beg).isEmpty = false →
      processIntegron lm ex size d c st fe =
        processIntegron lm2 ex2 size d c st fe ∧
      (st.rows.Pairwise (fun a b => rowKey a ≠ rowKey b) →
        processIntegron lm ex size d c st fe =
          .ok ⟨st.rows, (List.range st.rows.length).map Int.ofNat,
            st.strandVar⟩)) ∧
    (∀ (lm : LocalMaxFn) (ex : ExpandFn) (size d : Int) (c : Bool)
      (st : MaxState) (fe : List DescRow) (wb we : Int) (s0 : Int)
      (gl gr : Bool),
      (fe.all fun r => r.type == completeType) = false →
      (fe.all fun r => r.type == calinType) = true →
      (fe.filter fun r =>
        (st.rows.map Row.pos_beg).contains r.pos_beg).isEmpty = true →
      calinWindowCalc fe size d c = .ok (wb, we) →
      vfirst ((attcRows fe).map DescRow.strand) = .ok s0 →
      (lm wb we (strandLabel s0)).isEmpty = false →
      calinGoDirs fe (lm wb we (strandLabel s0)) size d = .ok (gl, gr) →
      processIntegron lm ex size d c st fe =
        .ok (finishIteration st
          (ex wb we (lm wb we (strandLabel s0)) (lm wb we (strandLabel s0))
            gl gr, some (strandLabel s0)))) := by
  constructor
  · intro lm lm2 ex ex2 size d c st fe hNC hCAL hb
    refine ⟨?_, fun hpw => ?_⟩
    · rw [processIntegron_calin_blocked lm ex size d c st fe hNC hCAL hb,
        processIntegron_calin_blocked lm2 ex2 size d c st fe hNC hCAL hb]
    · rw [processIntegron_calin_blocked lm ex size d c st fe hNC hCAL hb]
      have heq : dropDupRowKey st.rows = st.rows := by
        rw [dropDupRowKey]
        exact dropDupBy_eq_self_of_pairwise rowKey st.rows hpw
      rw [heq]
  · intro lm ex size d c st fe wb we s0 gl gr hNC hCAL hb hw hs hne hgd
    rw [processIntegron, branchDispatch]
    simp only [hNC, hCAL, Bool.false_eq_true, if_false, if_true]
    rw [calinBranch_runs lm ex size d c fe _ wb we s0 gl gr hb hw hs hne hgd]
    rfl

/-- C6 witness: the blocked case — the CALIN description at `pos_beg` 200
overlaps the accumulated table's `pos_beg` column, so the iteration leaves
the accumulated rows unchanged. -/
theorem C6_calin_gating_witness :
    processIntegron lmNone exKeep 10000 200 true stCal feCal =
      .ok ⟨stCal.rows, (List.range stCal.rows.length).map Int.ofNat,
        stCal.strandVar⟩ :=
  (C6_calin_gating.1 lmNone lmNone exKeep exKeep 10000 200 true stCal feCal
    (by decide) (by decide) (by decide)).2 (by decide)

/-- C7: whenever one iteration of `find_attc_max` succeeds, and in the final
returned table, no two rows agree on all columns except `e_value`
(pairwise distinct `rowKey`) and the index is the dense 0-based range
`0..n-1`. -/
theorem C7_dedup_invariant :
    (∀ (lm : LocalMaxFn) (ex : ExpandFn) (size d : Int) (c : Bool)
      (st : MaxState) (fe : List DescRow) (st' : MaxState),
      processIntegron lm ex size d c st fe = .ok st' →
      st'.rows.Pairwise (fun a b => rowKey a ≠ rowKey b) ∧
      st'.idx = (List.range st'.rows.length).map Int.ofNat) ∧
    (∀ (lm : LocalMaxFn) (ex : ExpandFn) (size d : Int) (c : Bool)
      (igs : List (List DescRow)) (t : MaxState),
      find_attc_max lm ex size d c igs = .ok t →
      t.rows.Pairwise (fun a b => rowKey a ≠ rowKey b) ∧
      t.idx = (List.range t.rows.length).map Int.ofNat) := by
  refine ⟨processIntegron_ok_inv, ?_⟩
  intro lm ex size d c igs t h
  rcases foldlM_processIntegron_inv lm ex size d c igs initState t h with
    rfl | hv
  · exact ⟨List.Pairwise.nil, by simp [initState]⟩
  · exact hv

/-- C7 witness: the invariant holds for the (empty) result of
`find_attc_max` on an empty integron collection. -/
theorem C7_dedup_invariant_witness :
    initState.rows.Pairwise (fun a b => rowKey a ≠ rowKey b) ∧
      initState.idx = (List.range initState.rows.length).map Int.ofNat :=
  C7_dedup_invariant.2 lmNone exKeep 1 1 true [] initState rfl

/-- C8 counterexample: a `complete` integron whose exhaustive search returns
zero hits makes `find_attc_max` raise an `IndexError` (line 234 reads
`df_max.pos_end.values[0]` without guarding against an empty `df_max`)
instead of completing. -/
theorem C8_counterexample :
    find_attc_max lmNone exKeep 10000 200 true [feC2] = .error indexErr := by
  rfl

/-- C8 (amended): `search_attc` on an empty hit table returns an empty
list; `find_attc_max` on an empty integron collection returns the empty
typed table; and a CALIN or In0 integron whose exhaustive search returns
zero hits completes without raising — but the complete branch raises an
IndexError on zero hits, so the empty-tolerance holds there only for the
CALIN and In0 branches. -/
theorem C8_empty_tolerance :
    (∀ (k : Bool) (d size : Int), search_attc [] k d size = []) ∧
    (∀ (lm : LocalMaxFn) (ex : ExpandFn) (size d : Int) (c : Bool),
      find_attc_max lm ex size d c [] = .ok initState) ∧
    (∀ (lm : LocalMaxFn) (ex : ExpandFn) (size d : Int) (c : Bool)
      (st : MaxState) (fe : List DescRow) (wb we : Int) (s0 : Int),
      (fe.all fun r => r.type == completeType) = false →
      (fe.all fun r => r.type == calinType) = true →
      (fe.filter fun r =>
        (st.rows.map Row.pos_beg).contains r.pos_beg).isEmpty = true →
      calinWindowCalc fe size d c = .ok (wb, we) →
      vfirst ((attcRows fe).map DescRow.strand) = .ok s0 →
      lm wb we (strandLabel s0) = [] →
      processIntegron lm ex size d c st fe =
        .ok (finishIteration st ([], some (strandLabel s0)))) ∧
    (∀ (lm : LocalMaxFn) (ex : ExpandFn) (size d : Int) (c : Bool)
      (st : MaxState) (fe : List DescRow) (wb we : Int) (s : String),
      (fe.all fun r => r.type == completeType) = false →
      (fe.all fun r => r.type == calinType) = false →
      (fe.all fun r => r.type == in0Type) = true →
      (fe.all fun r => r.model ≠ phageModel) = true →
      in0WindowCalc fe size d c = .ok (wb, we) →
      st.strandVar = some s →
      lm wb we s = [] →
      processIntegron lm ex size d c st fe =
        .ok (finishIteration st ([], none))) := by
  refine ⟨?_, fun lm ex size d c => rfl, ?_, ?_⟩
  · intro k d size
    cases k
    · simp [search_attc, dedupPalindromes, dropDupPosBeg, dropDupBy,
        searchAttcCore, plusStrand, minusStrand, hasGapOver]
    · rfl
  · intro lm ex size d c st fe wb we s0 hNC hCAL hb hw hs hz
    rw [processIntegron, branchDispatch]
    simp only [hNC, hCAL, Bool.false_eq_true, if_false, if_true]
    rw [calinBranch_zero lm ex size d c fe _ wb we s0 hb hw hs hz]
    rfl
  · intro lm ex size d c st fe wb we s hNC hNCal hIn0 hph hw hsv hz
    rw [processIntegron, branchDispatch]
    simp only [hNC, hNCal, hIn0, Bool.false_eq_true, if_false, if_true]
    rw [hsv, in0Branch_zero lm ex size d c fe wb we s hph hw hz]
    rfl

/-- C8 witness: the CALIN branch completing on zero hits, at the concrete
CALIN description with an empty accumulated table. -/
theorem C8_empty_tolerance_witness :
    processIntegron lmNone exKeep 10000 200 true initState feCal =
      .ok (finishIteration initState ([], some (strandLabel 1))) :=
  C8_empty_tolerance.2.2.1 lmNone exKeep 10000 200 true initState feCal
    0 460 1 (by decide) (by decide) (by decide) rfl rfl rfl

/-- C9 counterexample: with `circular = False`, the In0 window for an
integrase spanning `[800, 900]` on a replicon of size 1000 with
`dist_threshold` 200 is `(600, 1000)`: its end equals `replicon_size` and
so falls outside the claimed half-open interval `[0, replicon_size)`. -/
theorem C9_counterexample :
    in0WindowCalc feIn0 1000 200 false = .ok (600, 1000) ∧
      ¬ ((1000 : Int) < 1000) :=
  ⟨by rfl, by decide⟩

/-- C9 (amended): with `circular = False`, every branch's window satisfies
`0 ≤ window_beg` and `window_end ≤ replicon_size` (the closed interval: the
begin is clamped below at 0 by `max` and the end clamped above at
`replicon_size` by `min`, and the end bound is attained). -/
theorem C9_amended :
    (∀ (fe : List DescRow) (size d : Int) (L : Bool) (wb we : Int),
      completeWindowCalc fe size d false = .ok (L, wb, we) →
      0 ≤ wb ∧ we ≤ size) ∧
    (∀ (fe : List DescRow) (size d wb we : Int),
      calinWindowCalc fe size d false = .ok (wb, we) →
      0 ≤ wb ∧ we ≤ size) ∧
    (∀ (fe : List DescRow) (size d wb we : Int),
      in0WindowCalc fe size d false = .ok (wb, we) →
      0 ≤ wb ∧ we ≤ size) :=
  ⟨completeWindowCalc_linear_bounds, calinWindowCalc_linear_bounds,
    in0WindowCalc_linear_bounds⟩

/-- C9 witness: the linear bounds at the counterexample's In0 window. -/
theorem C9_amended_witness : (0 : Int) ≤ 600 ∧ (1000 : Int) ≤ 1000 :=
  C9_amended.2.2 feIn0 1000 200 600 1000 rfl

/-- C10: the `strand` variable read by the In0 branch's search call is
assigned only inside the complete and CALIN branches; for every integron
collection whose first integron reaching the search step is of type In0
with a non-`Phage_integrase` model (all earlier ones being skipped by the
dispatch), the run raises `UnboundLocalError` instead of returning a
table. -/
theorem C10_in0_unbound_strand :
    ∀ (lm : LocalMaxFn) (ex : ExpandFn) (size d : Int) (c : Bool)
      (pre rest : List (List DescRow)) (fe : List DescRow) (wb we : Int),
      (∀ g ∈ pre, skipsDispatch g) →
      (fe.all fun r => r.type == completeType) = false →
      (fe.all fun r => r.type == calinType) = false →
      (fe.all fun r => r.type == in0Type) = true →
      (fe.all fun r => r.model ≠ phageModel) = true →
      in0WindowCalc fe size d c = .ok (wb, we) →
      find_attc_max lm ex size d c (pre ++ fe :: rest) =
        .error unboundStrandErr := by
  intro lm ex size d c pre rest fe wb we hpre hNC hNCal hIn0 hph hw
  rw [find_attc_max, foldlM_skips lm ex size d c pre (fe :: rest) hpre,
    List.foldlM_cons]
  have hbr : processIntegron lm ex size d c initState fe =
      .error unboundStrandErr := by
    rw [processIntegron, branchDispatch]
    simp only [hNC, hNCal, hIn0, Bool.false_eq_true, if_false, if_true]
    rw [show initState.strandVar = none from rfl,
      in0Branch_unbound lm ex size d c fe wb we hph hw]
    rfl
  rw [hbr]
  rfl

/-- C10 witness: a collection whose only integron is the concrete In0
description raises the unbound-variable error. -/
theorem C10_in0_unbound_strand_witness :
    find_attc_max lmNone exKeep 1000 200 true ([] ++ feIn0 :: []) =
      .error unboundStrandErr :=
  C10_in0_unbound_strand lmNone exKeep 1000 200 true [] [] feIn0 600 100
    (fun g hg => absurd hg (List.not_mem_nil g)) (by decide) (by decide)
    (by decide) (by decide) rfl

end IntegronFinder
